import Mathlib

/-!
Verification of the joyce hybrid memory store and retrieval ranker.

Shallow embedding of:
* `joyce/vs/similarity.py` — `calculate_hybrid_score`
* `joyce/vs/search.py` — the scoring loop of `semantic_search`
* `joyce/vs/models.py` — `VectorSearchResponse.to_rag_context`
* `joyce/vs/insert.py` — `insert_memories`
* `joyce/services/user/user_entities.py` — entity CRUD operations
* `joyce/utils/string.py` — `safify`

Python dicts are modelled as insertion-ordered association lists; Python
objects and aliasing (needed for the defensive-copy claim) are modelled by an
explicit heap of dict objects addressed by naturals; database tables are
modelled as lists of rows; `func.now()` timestamps are abstract `Nat` ticks
and ISO strings are passed in as parameters.
-/

namespace Joyce

/-- A JSON value as stored in JSONB columns / Chroma metadata.  Only the
constructors the verified code paths distinguish are modelled: strings and
nested objects. -/
inductive JVal where
  | str (s : String)
  | obj (fields : List (String × JVal))

/-- A JSON object: insertion-ordered association list, keys unique. -/
abbrev JObj := List (String × JVal)

/-- Python `d[k]` / `d.get(k)`: first (unique) binding of `k`. -/
def dictGet (o : JObj) (k : String) : Option JVal :=
  (o.find? (fun kv => kv.1 == k)).map (fun kv => kv.2)

/-- Python `d[k] = v`: overwrite in place if the key exists (keeping its
position, as CPython dicts do), otherwise append at the end. -/
def dictSet (o : JObj) (k : String) (v : JVal) : JObj :=
  if o.any (fun kv => kv.1 == k) then
    o.map (fun kv => if kv.1 == k then (k, v) else kv)
  else
    o ++ [(k, v)]

/-- Python `s.strip()`: drop whitespace from both ends. -/
def stripStr (s : String) : String :=
  String.mk (((s.data.dropWhile Char.isWhitespace).reverse.dropWhile
    Char.isWhitespace).reverse)

end Joyce

namespace Joyce.VS

/-!  `joyce/vs/similarity.py:calculate_hybrid_score` (the identical copy in
`joyce/vs/search.py` is the one `semantic_search` calls).

The ISO-timestamp parsing of `created_at` is abstracted: `parsedAge = some a`
models the `try` branch succeeding with raw age `a` days
(`(now - dt).total_seconds() / 86400`, which the code then clamps at 0);
`parsedAge = none` models the `except (ValueError, AttributeError)` branch. -/

/-- `similarity = 1.0 / (1.0 + distance)`. -/
noncomputable def similarity (distance : ℝ) : ℝ := 1 / (1 + distance)

/-- `age_days`: the clamped parsed age, or `recency_decay_days * 2` when the
timestamp does not parse. -/
noncomputable def ageDays (parsedAge : Option ℝ) (recency_decay_days : ℝ) : ℝ :=
  match parsedAge with
  | some a => max 0 a
  | none => recency_decay_days * 2

/-- `recency = math.exp(-age_days / recency_decay_days)`. -/
noncomputable def recency (parsedAge : Option ℝ) (recency_decay_days : ℝ) : ℝ :=
  Real.exp (-(ageDays parsedAge recency_decay_days) / recency_decay_days)

/-- `calculate_hybrid_score`: `similarity * (1.0 + recency_weight * recency)`. -/
noncomputable def calculate_hybrid_score (distance : ℝ) (parsedAge : Option ℝ)
    (recency_weight recency_decay_days : ℝ) : ℝ :=
  similarity distance * (1 + recency_weight * recency parsedAge recency_decay_days)

/-- The scoring step of `semantic_search` (`joyce/vs/search.py` lines
229-236): a candidate with a (truthy) `created_at` string is scored with
`calculate_hybrid_score` at the default weights `0.15` / `90.0`; a candidate
with no timestamp falls back to `1.0 / (1.0 + distance)`.
`created_at = some p` models a present timestamp whose parse outcome is `p`;
`none` models a missing/empty timestamp. -/
noncomputable def semanticHybridScore (distance : ℝ) (created_at : Option (Option ℝ)) : ℝ :=
  match created_at with
  | some parsedAge => calculate_hybrid_score distance parsedAge 0.15 90
  | none => 1 / (1 + distance)

end Joyce.VS

namespace Joyce.VSModels

/-!  `joyce/vs/models.py:VectorSearchResponse.to_rag_context`. -/

/-- A search document as `to_rag_context` consumes it.  Only the fields the
method reads are modelled; `score_info` is the rendered suffix
`f" (score: {doc.score:.3f})" if doc.score else ""` (Python float formatting
is not re-modelled; the truncation claims are independent of its content). -/
structure VectorSearchDocument where
  text : String
  score_info : String

/-- The formatted entry for the document at (0-based) position `i`:
`f"[{i + 1}] {doc.text.strip()}{score_info}"`. -/
def entryAt (i : Nat) (d : VectorSearchDocument) : String :=
  "[" ++ toString (i + 1) ++ "] " ++ Joyce.stripStr d.text ++ d.score_info

/-- The truncation marker `f"... ({k} more results)"`. -/
def markerStr (k : Nat) : String := "... (" ++ toString k ++ " more results)"

/-- Python `sep.join(parts)`. -/
def joinSep (sep : String) : List String → String
  | [] => ""
  | [p] => p
  | p :: q :: rest => p ++ sep ++ joinSep sep (q :: rest)

/-- The `for i, doc in enumerate(self.documents)` loop of `to_rag_context`:
`total` is `len(self.documents)`, `N` is `max_length`, `cur` is
`current_length` and `parts` the accumulated `context_parts` (most recent
first; the Python list is its reverse). -/
def ragLoop (N total : Nat) : List VectorSearchDocument → Nat → Nat → List String → List String
  | [], _, _, parts => parts.reverse
  | d :: rest, i, cur, parts =>
    let entry := entryAt i d
    if cur + entry.length > N ∧ parts ≠ [] then
      (markerStr (total - i) :: parts).reverse
    else
      ragLoop N total rest (i + 1) (cur + entry.length + 2) (entry :: parts)

/-- `VectorSearchResponse.to_rag_context(max_length)`. -/
def toRagContext (docs : List VectorSearchDocument) (maxLength : Nat) : String :=
  if docs.isEmpty then "No relevant information found."
  else joinSep "\n\n" (ragLoop maxLength docs.length docs 0 0 [])

/-- The full entries of a document list, numbered from position `i`
(specification helper for the truncation theorem). -/
def entriesFrom (i : Nat) : List VectorSearchDocument → List String
  | [] => []
  | d :: rest => entryAt i d :: entriesFrom (i + 1) rest

/-- `Σ (p.length + 2)` over a part list: the value `current_length` tracks. -/
def weight (parts : List String) : Nat :=
  parts.foldr (fun p acc => p.length + 2 + acc) 0

/-- Largest formatted-entry length of a document list numbered from `i`. -/
def maxEntryLenFrom (i : Nat) : List VectorSearchDocument → Nat
  | [] => 0
  | d :: rest => max (entryAt i d).length (maxEntryLenFrom (i + 1) rest)

end Joyce.VSModels

namespace Joyce.VSInsert

/-!  `joyce/vs/insert.py:insert_memories`.

The two external effects — the relational `INSERT ... RETURNING` + `commit`
and the Chroma `add_vectors` upsert — are modelled as an emitted event trace.
The rows the database returns (`inserted_memories`: server-assigned ids and
timestamps) are a parameter `dbRows`; embeddings are opaque rationals. -/

open Joyce

/-- A `MemoryCreate` input record (fields `insert_memories` reads). -/
structure MemoryCreate where
  user_id : String
  type : String
  text : String
  data : Option JObj
  tags : List String
  deleted : Bool

/-- A `Memory` row as returned by `INSERT ... RETURNING`. -/
structure MemoryRow where
  id : String
  user_id : String
  type : String
  text : String
  data : Option JObj
  tags : List String
  created_at : Option String
  embedding : List ℚ

/-- External effects of `insert_memories`, in emission order. -/
inductive Ev where
  | dbInsert
  | dbCommit
  | vectorUpsert (ids : List String) (metadatas : List JObj) (documents : List String)

/-- The per-row Chroma metadata dict:
`{**(memory.data or {}), "user_id": ..., "memory_id": ..., "type": ...,
"tags": ",".join(tags) if tags else "", "created_at": created_at.isoformat()
or now}` — the five explicit keys overwrite same-named keys of `data`. -/
def buildMetadata (nowIso : String) (m : MemoryRow) : JObj :=
  dictSet (dictSet (dictSet (dictSet (dictSet (m.data.getD [])
    "user_id" (JVal.str m.user_id))
    "memory_id" (JVal.str m.id))
    "type" (JVal.str m.type))
    "tags" (JVal.str (if m.tags = [] then "" else String.intercalate "," m.tags)))
    "created_at" (JVal.str (m.created_at.getD nowIso))

/-- `insert_memories`: emits the DB insert, the commit, then the vector
upsert built from the rows the DB returned, and returns those rows. -/
def insert_memories (memories : List MemoryCreate) (dbRows : List MemoryRow)
    (nowIso : String) : List Ev × List MemoryRow :=
  if memories.isEmpty then ([], [])
  else
    let metadatas := dbRows.map (buildMetadata nowIso)
    ([Ev.dbInsert, Ev.dbCommit,
      Ev.vectorUpsert (dbRows.map (fun m => m.id)) metadatas (dbRows.map (fun m => m.text))],
     dbRows)

end Joyce.VSInsert

namespace Joyce.Entities

/-!  `joyce/services/user/user_entities.py` and `joyce/utils/string.py`.

For the defensive-copy claim the Python dict objects that flow into
`create_entity` are modelled with explicit aliasing: a heap maps addresses to
dict contents whose values are strings or references to other dicts.  Rows in
the `user_entities` table store pure JSON snapshots (`JObj`), as JSONB does.
`func.now()` is an abstract tick `Nat`; `uuid4()` and
`datetime.now(timezone.utc).isoformat()` are parameters. -/

open Joyce

/-- A Python value in a dict slot: a string or a reference to a dict. -/
inductive PVal where
  | str (s : String)
  | ref (a : Nat)
deriving DecidableEq, Repr

/-- A Python dict object: insertion-ordered association list. -/
abbrev PObj := List (String × PVal)

/-- The Python heap: finite map from addresses to dict objects. -/
abbrev Heap := List (Nat × PObj)

/-- Dereference an address. -/
def heapGet (h : Heap) (a : Nat) : Option PObj :=
  (h.find? (fun p => p.1 == a)).map (fun p => p.2)

/-- Overwrite the object at an (existing) address. -/
def heapSet (h : Heap) (a : Nat) (o : PObj) : Heap :=
  h.map (fun p => if p.1 == a then (a, o) else p)

/-- An address strictly larger than every allocated address. -/
def freshAddr (h : Heap) : Nat :=
  (h.map (fun p => p.1)).foldr max 0 + 1

/-- Allocate a new dict object, returning the new heap and its address. -/
def heapAlloc (h : Heap) (o : PObj) : Heap × Nat :=
  (h ++ [(freshAddr h, o)], freshAddr h)

/-- Python `d[k]` on a `PObj`. -/
def pdictGet (o : PObj) (k : String) : Option PVal :=
  (o.find? (fun kv => kv.1 == k)).map (fun kv => kv.2)

/-- Python `d[k] = v` on a `PObj`: overwrite in place or append. -/
def pdictSet (o : PObj) (k : String) (v : PVal) : PObj :=
  if o.any (fun kv => kv.1 == k) then
    o.map (fun kv => if kv.1 == k then (k, v) else kv)
  else
    o ++ [(k, v)]

/-- The data-preparation block of `create_entity`
(`user_entities.py` lines 89-97):

    data = data.copy() if data else {}
    data["id"] = str(entity_id)
    data.setdefault("meta", {}).update(
        {"created_source": "llm_tool",
         "last_updated": datetime.now(timezone.utc).isoformat()})

`dataArg = none` models `data=None`; a dangling address is read as `{}`
(unreachable for real callers).  `.copy()` is Python's shallow copy: a fresh
dict sharing the value references.  The result is `none` when the caller
stored a non-dict under `"meta"` (`.update` on it would raise
`AttributeError`); otherwise the new heap and the address of the prepared
dict. -/
def prepareEntityData (h : Heap) (dataArg : Option Nat) (entityId nowIso : String) :
    Option (Heap × Nat) :=
  let copied : PObj :=
    match dataArg with
    | some a =>
      match heapGet h a with
      | some o => if o.isEmpty then [] else o
      | none => []
    | none => []
  let alloc := heapAlloc h copied
  let h1 := alloc.1
  let d := alloc.2
  let withId := pdictSet copied "id" (PVal.str entityId)
  let h2 := heapSet h1 d withId
  let metaFields (m : PObj) : PObj :=
    pdictSet (pdictSet m "created_source" (PVal.str "llm_tool"))
      "last_updated" (PVal.str nowIso)
  match pdictGet withId "meta" with
  | some (PVal.ref ma) =>
    match heapGet h2 ma with
    | some mo => some (heapSet h2 ma (metaFields mo), d)
    | none => some (heapSet h2 ma (metaFields []), d)
  | some (PVal.str _) => none
  | none =>
    let alloc2 := heapAlloc h2 (metaFields [])
    let h3 := alloc2.1
    let ma := alloc2.2
    some (heapSet h3 d (pdictSet withId "meta" (PVal.ref ma)), d)

/-- JSONB serialization of a heap dict: deep snapshot as a pure `JObj`.
`fuel` bounds the dereference depth (any fuel above the heap size is enough
for the acyclic objects real code builds; Python could not serialize a cyclic
one). -/
def snapshotObj (h : Heap) : Nat → PObj → JObj
  | 0, _ => []
  | fuel + 1, o =>
    o.map (fun kv =>
      (kv.1,
       match kv.2 with
       | PVal.str s => JVal.str s
       | PVal.ref a =>
         match heapGet h a with
         | some o2 => JVal.obj (snapshotObj h fuel o2)
         | none => JVal.obj []))

/-- A `user_profiles` row (fields `create_entity` reads). -/
structure UserProfileRow where
  user_id : String
  display_name : String

/-- A `user_entities` row. -/
structure UserEntityRow where
  id : String
  user_id : String
  slug : String
  type : String
  collection : String
  data : JObj
  updated_at : Nat
  archived_at : Option Nat

/-- `joyce/utils/string.py:safify`: lowercase, spaces to hyphens, then drop
every character outside `[a-z0-9\-_./]` (the regex substitution). -/
def safify (s : String) : String :=
  let t := ((Joyce.stripStr s).toLower).replace " " "-"
  String.mk (t.toList.filter (fun c =>
    (decide (c ≥ 'a') && decide (c ≤ 'z')) || c.isDigit ||
    c == '-' || c == '_' || c == '.' || c == '/'))

/-- `make_entity_slug`: `safify(f"{user_handle}/{entity_type}.{identifier}"`
`+ (f"-{short_id}" if short_id else ""))`. -/
def make_entity_slug (user_handle entity_type identifier : String)
    (short_id : Option String) : String :=
  let base := user_handle ++ "/" ++ entity_type ++ "." ++ identifier
  let base :=
    match short_id with
    | some sid => base ++ "-" ++ sid
    | none => base
  safify base

/-- Python `s.split(sep)[0]`. -/
def firstToken (s sep : String) : String := (s.splitOn sep).headD ""

/-- Errors `create_entity` can raise. -/
inductive CreateErr where
  | noResultFound
  | integrityError
  | attributeError
deriving DecidableEq, Repr

/-- `create_entity(user_id, entity_type, data, slug, collection,
allow_upsert)`.  Control flow of the source: fetch the caller's
`UserProfile` with `.one()` (raises `NoResultFound` when absent), generate
`entity_id`/`slug`, prepare `data`, then `INSERT` with an
`ON CONFLICT (user_id, slug) DO UPDATE` clause only when `allow_upsert`.
Returns the final heap, the final table and the returned row or error;
on an error the session rolls back, so the table is unchanged (the Python
dict mutations of the data-preparation block are not rolled back). -/
def create_entity (profiles : List UserProfileRow) (db : List UserEntityRow)
    (h : Heap) (user_id entity_type : String) (dataArg : Option Nat)
    (slugArg : Option String) (collection : String) (allow_upsert : Bool)
    (entityId nowIso : String) (nowTick : Nat) :
    Heap × List UserEntityRow × Except CreateErr UserEntityRow :=
  match profiles.find? (fun p => p.user_id == user_id) with
  | none => (h, db, Except.error CreateErr.noResultFound)
  | some profile =>
    let slug :=
      match slugArg with
      | some s => s
      | none =>
        make_entity_slug (firstToken profile.display_name " ") entity_type
          (firstToken entityId "-") none
    match prepareEntityData h dataArg entityId nowIso with
    | none => (h, db, Except.error CreateErr.attributeError)
    | some (h4, d) =>
      let newData := snapshotObj h4 (h4.length + 1) ((heapGet h4 d).getD [])
      match db.find? (fun r => r.user_id == user_id && r.slug == slug) with
      | some existing =>
        if allow_upsert then
          let updated : UserEntityRow :=
            { existing with
              type := entity_type, collection := collection, data := newData,
              updated_at := nowTick, archived_at := none }
          (h4,
           db.map (fun r => if r.user_id == user_id && r.slug == slug then updated else r),
           Except.ok updated)
        else (h4, db, Except.error CreateErr.integrityError)
      | none =>
        let row : UserEntityRow :=
          ⟨entityId, user_id, slug, entity_type, collection, newData, nowTick, none⟩
        (h4, db ++ [row], Except.ok row)

/-- `get_entity_by_id`: filters on `UserEntity.id` only — the
`include_archived` flag is accepted but never used by the source. -/
def get_entity_by_id (db : List UserEntityRow) (entity_id : String)
    (include_archived : Bool) : Option UserEntityRow :=
  db.find? (fun r => r.id == entity_id)

/-- `get_entity_by_slug`: filters on `user_id` and `slug` only — the
`include_archived` flag is accepted but never used by the source. -/
def get_entity_by_slug (db : List UserEntityRow) (user_id slug : String)
    (include_archived : Bool) : Option UserEntityRow :=
  db.find? (fun r => r.user_id == user_id && r.slug == slug)

/-- Descending insertion by `updated_at` (model of `ORDER BY updated_at DESC`). -/
def insertDesc (x : UserEntityRow) : List UserEntityRow → List UserEntityRow
  | [] => [x]
  | y :: ys => if y.updated_at < x.updated_at then x :: y :: ys else y :: insertDesc x ys

/-- Sort rows by `updated_at` descending. -/
def sortByUpdatedDesc (l : List UserEntityRow) : List UserEntityRow :=
  l.foldr insertDesc []

/-- `list_entities`: filter by user, optionally by (truthy) type and
collection, exclude archived rows unless `include_archived`, order by
`updated_at` descending, then `LIMIT limit OFFSET offset`. -/
def list_entities (db : List UserEntityRow) (user_id : String)
    (entity_type collection : Option String) (include_archived : Bool)
    (limit offset : Nat) : List UserEntityRow :=
  let q := db.filter (fun r => r.user_id == user_id)
  let q :=
    match entity_type with
    | some t => if t == "" then q else q.filter (fun r => r.type == t)
    | none => q
  let q :=
    match collection with
    | some c => if c == "" then q else q.filter (fun r => r.collection == c)
    | none => q
  let q := if include_archived then q else q.filter (fun r => r.archived_at.isNone)
  ((sortByUpdatedDesc q).drop offset).take limit

/-- The metadata stamping shared by both update functions:

    meta = data.setdefault("meta", {})
    meta["last_updated"] = datetime.now(timezone.utc).isoformat()

`none` when the caller stored a non-dict under `"meta"` (the item assignment
on it would raise `TypeError`). -/
def stampMeta (data : JObj) (nowIso : String) : Option JObj :=
  match dictGet data "meta" with
  | some (JVal.obj m) =>
    some (dictSet data "meta" (JVal.obj (dictSet m "last_updated" (JVal.str nowIso))))
  | some (JVal.str _) => none
  | none =>
    some (dictSet data "meta" (JVal.obj (dictSet [] "last_updated" (JVal.str nowIso))))

/-- `update_entity_by_id`: select the live row by `(user_id, id)` under row
lock; `None` if absent; otherwise replace `data` wholesale with the supplied
dict (stamping `data.meta.last_updated`) and bump `updated_at`.  The outer
`none` models the uncaught `TypeError` of the stamping. -/
def update_entity_by_id (db : List UserEntityRow) (user_id entity_id : String)
    (data : JObj) (nowIso : String) (nowTick : Nat) :
    Option (Option UserEntityRow × List UserEntityRow) :=
  match db.find? (fun r => r.user_id == user_id && r.id == entity_id && r.archived_at.isNone) with
  | none => some (none, db)
  | some e =>
    (stampMeta data nowIso).map (fun data2 =>
      let e2 : UserEntityRow := { e with data := data2, updated_at := nowTick }
      (some e2, db.map (fun r => if r.id == e.id then e2 else r)))

/-- `update_entity_by_slug`: identical to `update_entity_by_id` except the
row is selected by `(user_id, slug)`. -/
def update_entity_by_slug (db : List UserEntityRow) (user_id slug : String)
    (data : JObj) (nowIso : String) (nowTick : Nat) :
    Option (Option UserEntityRow × List UserEntityRow) :=
  match db.find? (fun r => r.user_id == user_id && r.slug == slug && r.archived_at.isNone) with
  | none => some (none, db)
  | some e =>
    (stampMeta data nowIso).map (fun data2 =>
      let e2 : UserEntityRow := { e with data := data2, updated_at := nowTick }
      (some e2, db.map (fun r => if r.id == e.id then e2 else r)))

/-- `archive_entity`: select the live row by `(user_id, id)`; `False` if
absent (also when the row exists but is already archived); otherwise set
`archived_at = now()`, optionally record the reason in `data.meta` (when
`entity.data` is falsy the mutations land on a discarded fresh dict), commit
and return `True`.  The outer `none` models the uncaught `TypeError` when a
non-dict sits under `"meta"`.  `archiveData` is the reason-recording block:
the new `data` value of the archived row. -/
def archiveData (e : UserEntityRow) (reason : Option String) : Option JObj :=
  match reason with
  | none => some e.data
  | some rsn =>
    if e.data.isEmpty then some []
    else
      match dictGet e.data "meta" with
      | some (JVal.obj m) =>
        some (dictSet e.data "meta" (JVal.obj
          (dictSet (dictSet m "archive_reason" (JVal.str rsn))
            "archived_by" (JVal.str "llm_tool"))))
      | some (JVal.str _) => none
      | none =>
        some (dictSet e.data "meta" (JVal.obj
          (dictSet (dictSet [] "archive_reason" (JVal.str rsn))
            "archived_by" (JVal.str "llm_tool"))))

/-- The full `archive_entity` operation. -/
def archive_entity (db : List UserEntityRow) (user_id entity_id : String)
    (reason : Option String) (nowTick : Nat) :
    Option (Bool × List UserEntityRow) :=
  match db.find? (fun r => r.user_id == user_id && r.id == entity_id && r.archived_at.isNone) with
  | none => some (false, db)
  | some e =>
    (archiveData e reason).map (fun data2 =>
      let e2 : UserEntityRow := { e with archived_at := some nowTick, data := data2 }
      (true, db.map (fun r => if r.id == e.id then e2 else r)))

end Joyce.Entities

namespace Joyce

/-!  Association-list lemmas shared by the dict models. -/

theorem alist_find_set_self {κ α : Type} [BEq κ] [LawfulBEq κ] (k : κ) (v : α)
    (o : List (κ × α))
    (h : o.any (fun kv => kv.1 == k) = true) :
    (o.map (fun kv => if kv.1 == k then (k, v) else kv)).find? (fun kv => kv.1 == k) =
      some (k, v) := by
  induction o with
  | nil => simp at h
  | cons hd tl ih =>
    by_cases hk : (hd.1 == k) = true
    · rw [List.map_cons, if_pos hk, List.find?_cons_of_pos]
      simp
    · have hk2 : (hd.1 == k) = false := by simpa using hk
      rw [List.map_cons, if_neg (by simp [hk2]), List.find?_cons_of_neg _ (by simp [hk2])]
      exact ih (by simpa [hk2] using h)

theorem alist_find_append_self {κ α : Type} [BEq κ] [LawfulBEq κ] (k : κ) (v : α)
    (o : List (κ × α))
    (h : o.any (fun kv => kv.1 == k) = false) :
    (o ++ [(k, v)]).find? (fun kv => kv.1 == k) = some (k, v) := by
  induction o with
  | nil => simp
  | cons hd tl ih =>
    have hk2 : (hd.1 == k) = false := by
      rcases List.any_eq_false.mp h with h2
      simpa using h2 hd (by simp)
    rw [List.cons_append, List.find?_cons_of_neg _ (by simp [hk2])]
    refine ih ?_
    rcases List.any_eq_false.mp h with h2
    exact List.any_eq_false.mpr (fun x hx => h2 x (by simp [hx]))

theorem alist_find_map_set_ne {κ α : Type} [BEq κ] [LawfulBEq κ] {k k2 : κ} (v : α)
    (hne : (k == k2) = false) (o : List (κ × α)) :
    (o.map (fun kv => if kv.1 == k then (k, v) else kv)).find? (fun kv => kv.1 == k2) =
      o.find? (fun kv => kv.1 == k2) := by
  induction o with
  | nil => simp
  | cons hd tl ih =>
    by_cases hk : (hd.1 == k) = true
    · have hdk : hd.1 = k := by simpa using hk
      have hp : (hd.1 == k2) = false := by
        rw [hdk]
        exact hne
      rw [List.map_cons, if_pos hk, List.find?_cons_of_neg _ (by simp [hne]),
        List.find?_cons_of_neg _ (by simp [hp])]
      exact ih
    · have hk2 : (hd.1 == k) = false := by simpa using hk
      rw [List.map_cons, if_neg (by simp [hk2])]
      by_cases hp : (hd.1 == k2) = true
      · rw [List.find?_cons_of_pos _ (by simp [hp]), List.find?_cons_of_pos _ (by simp [hp])]
      · have hp2 : (hd.1 == k2) = false := by simpa using hp
        rw [List.find?_cons_of_neg _ (by simp [hp2]), List.find?_cons_of_neg _ (by simp [hp2])]
        exact ih

theorem alist_find_append_ne {κ α : Type} [BEq κ] [LawfulBEq κ] {k k2 : κ} (v : α)
    (hne : (k == k2) = false) (o : List (κ × α)) :
    (o ++ [(k, v)]).find? (fun kv => kv.1 == k2) = o.find? (fun kv => kv.1 == k2) := by
  induction o with
  | nil => simp [List.find?, hne]
  | cons hd tl ih =>
    by_cases hp : (hd.1 == k2) = true
    · rw [List.cons_append, List.find?_cons_of_pos _ (by simp [hp]),
        List.find?_cons_of_pos _ (by simp [hp])]
    · have hp2 : (hd.1 == k2) = false := by simpa using hp
      rw [List.cons_append, List.find?_cons_of_neg _ (by simp [hp2]),
        List.find?_cons_of_neg _ (by simp [hp2])]
      exact ih

theorem dictGet_dictSet_self (o : JObj) (k : String) (v : JVal) :
    dictGet (dictSet o k v) k = some v := by
  unfold dictGet dictSet
  by_cases h : o.any (fun kv => kv.1 == k)
  · rw [if_pos h, alist_find_set_self k v o h]
    rfl
  · rw [if_neg h, alist_find_append_self k v o (by simp only [Bool.not_eq_true] at h; exact h)]
    rfl

theorem dictGet_dictSet_ne {k k2 : String} (o : JObj) (v : JVal) (hne : k ≠ k2) :
    dictGet (dictSet o k v) k2 = dictGet o k2 := by
  have hb : (k == k2) = false := by simpa using hne
  unfold dictGet dictSet
  by_cases h : o.any (fun kv => kv.1 == k)
  · rw [if_pos h, alist_find_map_set_ne v hb o]
  · rw [if_neg h, alist_find_append_ne v hb o]

theorem alist_find_append_left {α : Type} (p : α → Bool) (l1 l2 : List α) (x : α)
    (h : l1.find? p = some x) : (l1 ++ l2).find? p = some x := by
  induction l1 with
  | nil => simp [List.find?] at h
  | cons hd tl ih =>
    by_cases hp : p hd
    · rw [List.find?_cons_of_pos _ hp] at h
      rw [List.cons_append, List.find?_cons_of_pos _ hp]
      exact h
    · rw [List.find?_cons_of_neg _ hp] at h
      rw [List.cons_append, List.find?_cons_of_neg _ hp]
      exact ih h

theorem alist_any_of_find {α : Type} (p : α → Bool) (l : List α) (x : α)
    (h : l.find? p = some x) : l.any p = true :=
  List.any_eq_true.mpr ⟨x, List.mem_of_find?_eq_some h, List.find?_some h⟩

end Joyce

namespace Joyce.Entities

theorem pdictGet_pdictSet_self (o : PObj) (k : String) (v : PVal) :
    pdictGet (pdictSet o k v) k = some v := by
  unfold pdictGet pdictSet
  by_cases h : o.any (fun kv => kv.1 == k)
  · rw [if_pos h, alist_find_set_self k v o h]
    rfl
  · rw [if_neg h, alist_find_append_self k v o (by simp only [Bool.not_eq_true] at h; exact h)]
    rfl

theorem pdictGet_pdictSet_ne {k k2 : String} (o : PObj) (v : PVal) (hne : k ≠ k2) :
    pdictGet (pdictSet o k v) k2 = pdictGet o k2 := by
  have hb : (k == k2) = false := by simpa using hne
  unfold pdictGet pdictSet
  by_cases h : o.any (fun kv => kv.1 == k)
  · rw [if_pos h, alist_find_map_set_ne v hb o]
  · rw [if_neg h, alist_find_append_ne v hb o]

theorem heapGet_heapSet_self (h : Heap) (a : Nat) (o o0 : PObj)
    (hget : heapGet h a = some o0) : heapGet (heapSet h a o) a = some o := by
  unfold heapGet heapSet
  unfold heapGet at hget
  obtain ⟨p, hp⟩ : ∃ p, h.find? (fun q => q.1 == a) = some p := by
    cases hf : h.find? (fun q => q.1 == a) with
    | none => rw [hf] at hget; simp at hget
    | some p => exact ⟨p, rfl⟩
  have hany : h.any (fun q => q.1 == a) = true := alist_any_of_find _ _ _ hp
  rw [alist_find_set_self a o h hany]
  rfl

theorem heapGet_heapSet_ne {a b : Nat} (h : Heap) (o : PObj) (hne : b ≠ a) :
    heapGet (heapSet h b o) a = heapGet h a := by
  have hb : (b == a) = false := by simpa using hne
  unfold heapGet heapSet
  rw [alist_find_map_set_ne o hb h]

theorem le_foldr_max (l : List Nat) (x : Nat) (hx : x ∈ l) : x ≤ l.foldr max 0 := by
  induction l with
  | nil => simp at hx
  | cons hd tl ih =>
    rcases List.mem_cons.mp hx with h1 | h2
    · rw [h1, List.foldr_cons]
      exact le_max_left _ _
    · exact le_trans (ih h2) (le_max_right _ _)

theorem mem_lt_freshAddr (h : Heap) (p : Nat × PObj) (hp : p ∈ h) : p.1 < freshAddr h := by
  unfold freshAddr
  have h1 : p.1 ∈ h.map (fun q => q.1) := List.mem_map_of_mem _ hp
  have h2 := le_foldr_max _ _ h1
  omega

theorem heapGet_some_lt_fresh (h : Heap) (a : Nat) (o : PObj)
    (hget : heapGet h a = some o) : a < freshAddr h := by
  unfold heapGet at hget
  cases hf : h.find? (fun q => q.1 == a) with
  | none => rw [hf] at hget; simp at hget
  | some p =>
    have hmem := List.mem_of_find?_eq_some hf
    have hpa : p.1 = a := by simpa using List.find?_some hf
    have h3 := mem_lt_freshAddr h p hmem
    omega

theorem heapGet_alloc_fresh (h : Heap) (o : PObj) :
    heapGet (h ++ [(freshAddr h, o)]) (freshAddr h) = some o := by
  unfold heapGet
  have hany : h.any (fun q => q.1 == freshAddr h) = false := by
    rw [List.any_eq_false]
    intro x hx
    have h1 := mem_lt_freshAddr h x hx
    simp only [beq_iff_eq]
    omega
  rw [alist_find_append_self (freshAddr h) o h hany]
  rfl

theorem heapGet_append_left (h l2 : Heap) (a : Nat) (o : PObj)
    (hget : heapGet h a = some o) : heapGet (h ++ l2) a = some o := by
  unfold heapGet at hget ⊢
  cases hf : h.find? (fun q => q.1 == a) with
  | none => rw [hf] at hget; simp at hget
  | some p =>
    rw [hf] at hget
    rw [alist_find_append_left _ h l2 p hf]
    exact hget

end Joyce.Entities

namespace Joyce.VSInsert

theorem buildMetadata_user_id (nowIso : String) (m : MemoryRow) :
    dictGet (buildMetadata nowIso m) "user_id" = some (JVal.str m.user_id) := by
  unfold buildMetadata
  rw [dictGet_dictSet_ne _ _ (by decide), dictGet_dictSet_ne _ _ (by decide),
    dictGet_dictSet_ne _ _ (by decide), dictGet_dictSet_ne _ _ (by decide),
    dictGet_dictSet_self]

theorem buildMetadata_memory_id (nowIso : String) (m : MemoryRow) :
    dictGet (buildMetadata nowIso m) "memory_id" = some (JVal.str m.id) := by
  unfold buildMetadata
  rw [dictGet_dictSet_ne _ _ (by decide), dictGet_dictSet_ne _ _ (by decide),
    dictGet_dictSet_ne _ _ (by decide), dictGet_dictSet_self]

theorem buildMetadata_type (nowIso : String) (m : MemoryRow) :
    dictGet (buildMetadata nowIso m) "type" = some (JVal.str m.type) := by
  unfold buildMetadata
  rw [dictGet_dictSet_ne _ _ (by decide), dictGet_dictSet_ne _ _ (by decide),
    dictGet_dictSet_self]

theorem buildMetadata_tags (nowIso : String) (m : MemoryRow) :
    dictGet (buildMetadata nowIso m) "tags" =
      some (JVal.str (if m.tags = [] then "" else String.intercalate "," m.tags)) := by
  unfold buildMetadata
  rw [dictGet_dictSet_ne _ _ (by decide), dictGet_dictSet_self]

theorem buildMetadata_created_at (nowIso : String) (m : MemoryRow) :
    dictGet (buildMetadata nowIso m) "created_at" =
      some (JVal.str (m.created_at.getD nowIso)) := by
  unfold buildMetadata
  rw [dictGet_dictSet_self]

/-- Claim C1: for every non-empty batch, the relational insert and commit are
emitted strictly before the vector upsert, and for every returned memory row
the vector upsert carries, at the row's position, an ID equal to the row's ID
and a metadata record whose `memory_id` is that ID, `user_id` the row's owner,
`type` the row's type, `tags` the comma-joined tags, and `created_at` the
row's ISO timestamp (falling back to "now"), these five keys overriding any
same-named keys spread from the row's `data` object (the row's `data` is
universally quantified here). -/
theorem insert_memories_dualwrite (memories : List MemoryCreate)
    (dbRows : List MemoryRow) (nowIso : String) (h : memories ≠ []) :
    ∃ (i j : Nat) (ids : List String) (mds : List JObj) (docs : List String),
      i < j ∧
      (insert_memories memories dbRows nowIso).1[i]? = some Ev.dbCommit ∧
      (insert_memories memories dbRows nowIso).1[j]? =
        some (Ev.vectorUpsert ids mds docs) ∧
      (insert_memories memories dbRows nowIso).2 = dbRows ∧
      ∀ (k : Nat) (r : MemoryRow), dbRows[k]? = some r →
        ids[k]? = some r.id ∧
        ∃ md, mds[k]? = some md ∧
          dictGet md "memory_id" = some (JVal.str r.id) ∧
          dictGet md "user_id" = some (JVal.str r.user_id) ∧
          dictGet md "type" = some (JVal.str r.type) ∧
          dictGet md "tags" =
            some (JVal.str (if r.tags = [] then "" else String.intercalate "," r.tags)) ∧
          dictGet md "created_at" = some (JVal.str (r.created_at.getD nowIso)) := by
  have hne : memories.isEmpty = false := by
    cases memories with
    | nil => exact absurd rfl h
    | cons a l => rfl
  refine ⟨1, 2, dbRows.map (fun m => m.id), dbRows.map (buildMetadata nowIso),
    dbRows.map (fun m => m.text), by omega, ?_, ?_, ?_, ?_⟩
  · simp [insert_memories, hne]
  · simp [insert_memories, hne]
  · simp [insert_memories, hne]
  · intro k r hk
    refine ⟨by simp [List.getElem?_map, hk], buildMetadata nowIso r,
      by simp [List.getElem?_map, hk], buildMetadata_memory_id nowIso r,
      buildMetadata_user_id nowIso r, buildMetadata_type nowIso r,
      buildMetadata_tags nowIso r, buildMetadata_created_at nowIso r⟩

/-- Witness for C1: a one-element batch whose row carries a `data` object with
a clashing `memory_id` key. -/
theorem insert_memories_dualwrite_witness :
    ∃ (i j : Nat) (ids : List String) (mds : List JObj) (docs : List String),
      i < j ∧
      (insert_memories [⟨"u1", "note", "hello", none, [], false⟩]
        [⟨"m1", "u1", "note", "hello", some [("memory_id", JVal.str "fake")],
          ["a", "b"], none, []⟩] "NOW").1[i]? = some Ev.dbCommit ∧
      (insert_memories [⟨"u1", "note", "hello", none, [], false⟩]
        [⟨"m1", "u1", "note", "hello", some [("memory_id", JVal.str "fake")],
          ["a", "b"], none, []⟩] "NOW").1[j]? =
        some (Ev.vectorUpsert ids mds docs) ∧
      (insert_memories [⟨"u1", "note", "hello", none, [], false⟩]
        [⟨"m1", "u1", "note", "hello", some [("memory_id", JVal.str "fake")],
          ["a", "b"], none, []⟩] "NOW").2 =
        [⟨"m1", "u1", "note", "hello", some [("memory_id", JVal.str "fake")],
          ["a", "b"], none, []⟩] ∧
      ∀ (k : Nat) (r : MemoryRow),
        ([(⟨"m1", "u1", "note", "hello", some [("memory_id", JVal.str "fake")],
          ["a", "b"], none, []⟩ : MemoryRow)])[k]? = some r →
        ids[k]? = some r.id ∧
        ∃ md, mds[k]? = some md ∧
          dictGet md "memory_id" = some (JVal.str r.id) ∧
          dictGet md "user_id" = some (JVal.str r.user_id) ∧
          dictGet md "type" = some (JVal.str r.type) ∧
          dictGet md "tags" =
            some (JVal.str (if r.tags = [] then "" else String.intercalate "," r.tags)) ∧
          dictGet md "created_at" = some (JVal.str (r.created_at.getD "NOW")) :=
  insert_memories_dualwrite _ _ _ (by simp)

end Joyce.VSInsert

namespace Joyce.VS

/-- Claim C2: for two candidates scored with the same `recency_weight` and
`recency_decay_days` (in the function's parameter domain: a nonnegative
weight and a positive decay) and distances at least 0, same timestamp and
smaller distance gives a hybrid score greater than or equal to the other's,
and same distance and a more recent timestamp (smaller raw age) gives a
hybrid score greater than or equal to the other's. -/
theorem hybrid_score_monotone (w τ d₁ d₂ d a₁ a₂ : ℝ) (ages : Option ℝ)
    (hw : 0 ≤ w) (hτ : 0 < τ) (hd₁ : 0 ≤ d₁) (hd₂ : 0 ≤ d₂) (hd : 0 ≤ d) :
    (d₂ ≤ d₁ → calculate_hybrid_score d₁ ages w τ ≤ calculate_hybrid_score d₂ ages w τ) ∧
    (a₂ ≤ a₁ →
      calculate_hybrid_score d (some a₁) w τ ≤ calculate_hybrid_score d (some a₂) w τ) := by
  constructor
  · intro hle
    unfold calculate_hybrid_score
    have hr := Real.exp_pos (-(ageDays ages τ) / τ)
    have hfac : 0 ≤ 1 + w * recency ages τ := by
      unfold recency
      nlinarith
    have hsim : similarity d₁ ≤ similarity d₂ := by
      unfold similarity
      exact one_div_le_one_div_of_le (by linarith) (by linarith)
    exact mul_le_mul_of_nonneg_right hsim hfac
  · intro hage
    unfold calculate_hybrid_score
    have hsim0 : 0 ≤ similarity d := by
      unfold similarity
      positivity
    have hrec : recency (some a₁) τ ≤ recency (some a₂) τ := by
      unfold recency ageDays
      have h1 : max 0 a₂ ≤ max 0 a₁ := max_le_max le_rfl hage
      have h2 : max 0 a₂ / τ ≤ max 0 a₁ / τ := by gcongr
      have h3 : -(max 0 a₁ / τ) ≤ -(max 0 a₂ / τ) := neg_le_neg h2
      simpa [neg_div] using Real.exp_le_exp.mpr h3
    have hmul : 1 + w * recency (some a₁) τ ≤ 1 + w * recency (some a₂) τ := by
      nlinarith
    exact mul_le_mul_of_nonneg_left hmul hsim0

/-- Witness for C2 at distances 2, 1 and ages 5, 3 days with the default
parameters. -/
theorem hybrid_score_monotone_witness :
    ((1 : ℝ) ≤ 2 → calculate_hybrid_score 2 none 0.15 90 ≤ calculate_hybrid_score 1 none 0.15 90) ∧
    ((3 : ℝ) ≤ 5 →
      calculate_hybrid_score 1 (some 5) 0.15 90 ≤ calculate_hybrid_score 1 (some 3) 0.15 90) :=
  hybrid_score_monotone 0.15 90 2 1 1 5 3 none (by norm_num) (by norm_num)
    (by norm_num) (by norm_num) (by norm_num)

/-- Claim C6: a candidate whose timestamp parses to the current instant
(raw age 0) has recency factor exactly 1; as the age grows without bound the
recency factor tends to 0 and the hybrid score converges to plain
`similarity = 1/(1+distance)`; and a candidate with no timestamp at all is
scored as exactly `1/(1+distance)` by `semantic_search`, with no recency
term. -/
theorem hybrid_score_recency_boundary (d w τ : ℝ) (hτ : 0 < τ) :
    recency (some 0) τ = 1 ∧
    Filter.Tendsto (fun a : ℝ => recency (some a) τ) Filter.atTop (nhds 0) ∧
    Filter.Tendsto (fun a : ℝ => calculate_hybrid_score d (some a) w τ) Filter.atTop
      (nhds (similarity d)) ∧
    semanticHybridScore d none = similarity d := by
  have hrec0 : recency (some 0) τ = 1 := by
    unfold recency ageDays
    norm_num [Real.exp_zero]
  have hbot : Filter.Tendsto (fun a : ℝ => -(max 0 a) / τ) Filter.atTop Filter.atBot := by
    have h1 : Filter.Tendsto (fun a : ℝ => max 0 a) Filter.atTop Filter.atTop :=
      Filter.tendsto_atTop_mono (fun a => le_max_right 0 a) Filter.tendsto_id
    have h2 := h1.atTop_div_const hτ
    have h3 := Filter.tendsto_neg_atTop_atBot.comp h2
    simpa [Function.comp_def, neg_div] using h3
  have hrecLim : Filter.Tendsto (fun a : ℝ => recency (some a) τ) Filter.atTop (nhds 0) := by
    have h4 := Real.tendsto_exp_atBot.comp hbot
    simpa [Function.comp_def, recency, ageDays] using h4
  refine ⟨hrec0, hrecLim, ?_, rfl⟩
  have h5 := ((hrecLim.const_mul w).const_add 1).const_mul (similarity d)
  simpa [calculate_hybrid_score] using h5

/-- Witness for C6 at distance 1 with the default parameters. -/
theorem hybrid_score_recency_boundary_witness :
    recency (some 0) 90 = 1 ∧
    Filter.Tendsto (fun a : ℝ => recency (some a) 90) Filter.atTop (nhds 0) ∧
    Filter.Tendsto (fun a : ℝ => calculate_hybrid_score 1 (some a) 0.15 90) Filter.atTop
      (nhds (similarity 1)) ∧
    semanticHybridScore 1 none = similarity 1 :=
  hybrid_score_recency_boundary 1 0.15 90 (by norm_num)

end Joyce.VS

namespace Joyce.Entities

/-- Claim C10: `create_entity` loads the caller's `UserProfile` first and
fails with a no-result error — creating no entity row and touching no dict —
whenever the user has no profile, even when an explicit slug is supplied. -/
theorem create_entity_requires_profile (profiles : List UserProfileRow)
    (db : List UserEntityRow) (h : Heap) (user_id entity_type : String)
    (dataArg : Option Nat) (slugArg : Option String) (collection : String)
    (allow_upsert : Bool) (entityId nowIso : String) (nowTick : Nat)
    (hprof : profiles.find? (fun p => p.user_id == user_id) = none) :
    create_entity profiles db h user_id entity_type dataArg slugArg collection
      allow_upsert entityId nowIso nowTick =
      (h, db, Except.error CreateErr.noResultFound) := by
  unfold create_entity
  rw [hprof]

/-- Witness for C10: empty profile table, explicit slug supplied. -/
theorem create_entity_requires_profile_witness :
    create_entity [] [] [] "u1" "goal" none (some "u1/goal.run") "misc" false
      "e1" "NOW" 7 = ([], [], Except.error CreateErr.noResultFound) :=
  create_entity_requires_profile [] [] [] "u1" "goal" none (some "u1/goal.run")
    "misc" false "e1" "NOW" 7 rfl

theorem insertDesc_perm (x : UserEntityRow) (l : List UserEntityRow) :
    (insertDesc x l).Perm (x :: l) := by
  induction l with
  | nil => exact List.Perm.refl _
  | cons y ys ih =>
    unfold insertDesc
    by_cases hc : y.updated_at < x.updated_at
    · rw [if_pos hc]
    · rw [if_neg hc]
      exact List.Perm.trans (ih.cons y) (List.Perm.swap x y ys)

theorem sortByUpdatedDesc_perm (l : List UserEntityRow) :
    (sortByUpdatedDesc l).Perm l := by
  induction l with
  | nil => exact List.Perm.refl _
  | cons x xs ih =>
    unfold sortByUpdatedDesc at ih ⊢
    rw [List.foldr_cons]
    exact List.Perm.trans (insertDesc_perm x _) (ih.cons x)

theorem list_entities_filtered_archived (q : List UserEntityRow)
    (limit offset : Nat) (r : UserEntityRow)
    (hr : r ∈ ((sortByUpdatedDesc (q.filter (fun x => x.archived_at.isNone))).drop
      offset).take limit) : r.archived_at = none := by
  have h1 : r ∈ sortByUpdatedDesc (q.filter (fun x => x.archived_at.isNone)) :=
    List.mem_of_mem_drop (List.mem_of_mem_take hr)
  have h2 : r ∈ q.filter (fun x => x.archived_at.isNone) :=
    ((sortByUpdatedDesc_perm _).mem_iff).mp h1
  have h3 := (List.mem_filter.mp h2).2
  simpa [Option.isNone_iff_eq_none] using h3

/-- Counterexample to Claim C9 as stated: `get_entity_by_slug` with
`include_archived=False` returns a row whose `archived_at` is non-null — the
source never filters this lookup on `archived_at`. -/
theorem get_entity_by_slug_ignores_flag_cex :
    (get_entity_by_slug [⟨"e1", "u1", "s1", "t", "misc", [], 0, some 5⟩]
      "u1" "s1" false).map (fun r => r.archived_at) = some (some 5) := rfl

/-- Claim C9 as amended: both `get_entity_by_id` and `get_entity_by_slug`
ignore the `include_archived` flag entirely (their results do not depend on
it, so archived rows are returned either way); only `list_entities` honors
it, excluding rows with non-null `archived_at` when it is false and
including every matching row (modulo paging) when it is true. -/
theorem include_archived_honoring (db : List UserEntityRow)
    (entity_id user_id slug : String) (f₁ f₂ : Bool) :
    get_entity_by_id db entity_id f₁ = get_entity_by_id db entity_id f₂ ∧
    get_entity_by_slug db user_id slug f₁ = get_entity_by_slug db user_id slug f₂ ∧
    (∀ (t c : Option String) (limit offset : Nat) (r : UserEntityRow),
      r ∈ list_entities db user_id t c false limit offset → r.archived_at = none) ∧
    (∀ r : UserEntityRow, r ∈ db → r.user_id = user_id →
      r ∈ list_entities db user_id none none true db.length 0) := by
  refine ⟨rfl, rfl, ?_, ?_⟩
  · intro t c limit offset r hr
    unfold list_entities at hr
    simp only [Bool.false_eq_true, if_false] at hr
    exact list_entities_filtered_archived _ limit offset r hr
  · intro r hmem huser
    unfold list_entities
    simp only [if_true]
    have h1 : r ∈ db.filter (fun x => x.user_id == user_id) :=
      List.mem_filter.mpr ⟨hmem, by simp [huser]⟩
    have h2 : r ∈ sortByUpdatedDesc (db.filter (fun x => x.user_id == user_id)) :=
      ((sortByUpdatedDesc_perm _).mem_iff).mpr h1
    have hlen : (sortByUpdatedDesc (db.filter (fun x => x.user_id == user_id))).length ≤
        db.length := by
      rw [(sortByUpdatedDesc_perm _).length_eq]
      exact List.length_filter_le _ _
    rw [List.drop_zero, List.take_of_length_le hlen]
    exact h2

/-- Witness for the amended C9: one live and one archived row. -/
theorem include_archived_honoring_witness :
    get_entity_by_id [⟨"e1", "u1", "s1", "t", "misc", [], 0, some 5⟩] "e1" true =
      get_entity_by_id [⟨"e1", "u1", "s1", "t", "misc", [], 0, some 5⟩] "e1" false ∧
    get_entity_by_slug [⟨"e1", "u1", "s1", "t", "misc", [], 0, some 5⟩] "u1" "s1" true =
      get_entity_by_slug [⟨"e1", "u1", "s1", "t", "misc", [], 0, some 5⟩] "u1" "s1" false ∧
    (∀ (t c : Option String) (limit offset : Nat) (r : UserEntityRow),
      r ∈ list_entities [⟨"e1", "u1", "s1", "t", "misc", [], 0, some 5⟩] "u1" t c
        false limit offset → r.archived_at = none) ∧
    (∀ r : UserEntityRow, r ∈ [⟨"e1", "u1", "s1", "t", "misc", [], 0, some 5⟩] →
      r.user_id = "u1" →
      r ∈ list_entities [⟨"e1", "u1", "s1", "t", "misc", [], 0, some 5⟩] "u1" none none
        true 1 0) :=
  include_archived_honoring [⟨"e1", "u1", "s1", "t", "misc", [], 0, some 5⟩]
    "e1" "u1" "s1" true false

end Joyce.Entities

namespace Joyce.Entities

theorem stampMeta_last_updated (data : JObj) (nowIso : String) (data2 : JObj)
    (h : stampMeta data nowIso = some data2) :
    ∃ m, dictGet data2 "meta" = some (JVal.obj m) ∧
      dictGet m "last_updated" = some (JVal.str nowIso) := by
  unfold stampMeta at h
  cases hcase : dictGet data "meta" with
  | none =>
    rw [hcase] at h
    simp only [Option.some.injEq] at h
    subst h
    exact ⟨dictSet [] "last_updated" (JVal.str nowIso), dictGet_dictSet_self _ _ _,
      dictGet_dictSet_self _ _ _⟩
  | some v =>
    cases v with
    | str s => rw [hcase] at h; simp at h
    | obj m =>
      rw [hcase] at h
      simp only [Option.some.injEq] at h
      subst h
      exact ⟨dictSet m "last_updated" (JVal.str nowIso), dictGet_dictSet_self _ _ _,
        dictGet_dictSet_self _ _ _⟩

/-- Claim C4: both update operations return `None` and modify no row when no
live row matches; when a live row matches, they replace its `data` wholesale
with the supplied dict (the result does not depend on the old `data` — no
deep merge), stamp `data.meta.last_updated` with the current ISO time, and
bump `updated_at`. -/
theorem update_entity_semantics (db : List UserEntityRow)
    (user_id entity_id slug : String) (data : JObj) (nowIso : String) (nowTick : Nat) :
    (db.find? (fun r => r.user_id == user_id && r.id == entity_id && r.archived_at.isNone) =
        none →
      update_entity_by_id db user_id entity_id data nowIso nowTick = some (none, db)) ∧
    (∀ e data2,
      db.find? (fun r => r.user_id == user_id && r.id == entity_id && r.archived_at.isNone) =
        some e →
      stampMeta data nowIso = some data2 →
      update_entity_by_id db user_id entity_id data nowIso nowTick =
        some (some { e with data := data2, updated_at := nowTick },
          db.map (fun r =>
            if r.id == e.id then { e with data := data2, updated_at := nowTick } else r))) ∧
    (db.find? (fun r => r.user_id == user_id && r.slug == slug && r.archived_at.isNone) =
        none →
      update_entity_by_slug db user_id slug data nowIso nowTick = some (none, db)) ∧
    (∀ e data2,
      db.find? (fun r => r.user_id == user_id && r.slug == slug && r.archived_at.isNone) =
        some e →
      stampMeta data nowIso = some data2 →
      update_entity_by_slug db user_id slug data nowIso nowTick =
        some (some { e with data := data2, updated_at := nowTick },
          db.map (fun r =>
            if r.id == e.id then { e with data := data2, updated_at := nowTick } else r))) ∧
    (∀ data2, stampMeta data nowIso = some data2 →
      ∃ m, dictGet data2 "meta" = some (JVal.obj m) ∧
        dictGet m "last_updated" = some (JVal.str nowIso)) := by
  refine ⟨?_, ?_, ?_, ?_, ?_⟩
  · intro h
    simp [update_entity_by_id, h]
  · intro e data2 hfind hstamp
    simp [update_entity_by_id, hfind, hstamp]
  · intro h
    simp [update_entity_by_slug, h]
  · intro e data2 hfind hstamp
    simp [update_entity_by_slug, hfind, hstamp]
  · intro data2 hstamp
    exact stampMeta_last_updated data nowIso data2 hstamp

/-- Witness for C4: a miss by id, a hit by slug, and the stamped metadata. -/
theorem update_entity_semantics_witness :
    update_entity_by_id [⟨"e1", "u1", "s1", "t", "misc", [], 0, none⟩] "u1" "eX"
      [("k", JVal.str "v")] "NOW" 9 =
      some (none, [⟨"e1", "u1", "s1", "t", "misc", [], 0, none⟩]) ∧
    update_entity_by_slug [⟨"e1", "u1", "s1", "t", "misc", [], 0, none⟩] "u1" "s1"
      [("k", JVal.str "v")] "NOW" 9 =
      some (some ⟨"e1", "u1", "s1", "t", "misc",
          [("k", JVal.str "v"), ("meta", JVal.obj [("last_updated", JVal.str "NOW")])],
          9, none⟩,
        [⟨"e1", "u1", "s1", "t", "misc",
          [("k", JVal.str "v"), ("meta", JVal.obj [("last_updated", JVal.str "NOW")])],
          9, none⟩]) ∧
    (∃ m, dictGet [("k", JVal.str "v"),
        ("meta", JVal.obj [("last_updated", JVal.str "NOW")])] "meta" =
        some (JVal.obj m) ∧
      dictGet m "last_updated" = some (JVal.str "NOW")) :=
  ⟨(update_entity_semantics [⟨"e1", "u1", "s1", "t", "misc", [], 0, none⟩] "u1" "eX" "s1"
      [("k", JVal.str "v")] "NOW" 9).1 rfl,
   (update_entity_semantics [⟨"e1", "u1", "s1", "t", "misc", [], 0, none⟩] "u1" "eX" "s1"
      [("k", JVal.str "v")] "NOW" 9).2.2.2.1 ⟨"e1", "u1", "s1", "t", "misc", [], 0, none⟩
      [("k", JVal.str "v"), ("meta", JVal.obj [("last_updated", JVal.str "NOW")])] rfl rfl,
   (update_entity_semantics [⟨"e1", "u1", "s1", "t", "misc", [], 0, none⟩] "u1" "eX" "s1"
      [("k", JVal.str "v")] "NOW" 9).2.2.2.2
      [("k", JVal.str "v"), ("meta", JVal.obj [("last_updated", JVal.str "NOW")])] rfl⟩

/-- Claim C5: archiving returns `true` exactly once for a live entity,
setting `archived_at` non-null; a second call on the result, and any call
matching no live row (nonexistent or already archived), returns `false`
without raising and leaves the table unchanged. -/
theorem archive_entity_idempotent (db : List UserEntityRow) (user_id entity_id : String)
    (reason reason2 : Option String) (now now2 : Nat) :
    (db.find? (fun r => r.user_id == user_id && r.id == entity_id && r.archived_at.isNone) =
        none →
      archive_entity db user_id entity_id reason now = some (false, db)) ∧
    (∀ e b db1,
      db.find? (fun r => r.user_id == user_id && r.id == entity_id && r.archived_at.isNone) =
        some e →
      archive_entity db user_id entity_id reason now = some (b, db1) →
      b = true ∧
      (∀ r ∈ db1, r.id = e.id → r.archived_at = some now) ∧
      archive_entity db1 user_id entity_id reason2 now2 = some (false, db1)) := by
  constructor
  · intro h
    simp [archive_entity, h]
  · intro e b db1 hfind hres
    simp only [archive_entity, hfind] at hres
    cases harch : archiveData e reason with
    | none =>
      rw [harch] at hres
      simp at hres
    | some data2 =>
      rw [harch] at hres
      simp only [Option.map_some', Option.some.injEq, Prod.mk.injEq] at hres
      obtain ⟨hb, hdb⟩ := hres
      have hpe := List.find?_some hfind
      simp only [Bool.and_eq_true, beq_iff_eq, Option.isNone_iff_eq_none] at hpe
      refine ⟨hb.symm, ?_, ?_⟩
      · intro r hr hid
        rw [← hdb] at hr
        obtain ⟨r0, hr0, hmap⟩ := List.mem_map.mp hr
        by_cases hc : (r0.id == e.id) = true
        · rw [if_pos hc] at hmap
          rw [← hmap]
        · rw [if_neg hc] at hmap
          rw [← hmap] at hid
          exact absurd (beq_iff_eq.mpr hid) hc
      · have hnone : db1.find?
            (fun r => r.user_id == user_id && r.id == entity_id && r.archived_at.isNone) =
            none := by
          rw [List.find?_eq_none]
          intro x hx
          rw [← hdb] at hx
          obtain ⟨r0, hr0, hmap⟩ := List.mem_map.mp hx
          by_cases hc : (r0.id == e.id) = true
          · rw [if_pos hc] at hmap
            rw [← hmap]
            simp
          · rw [if_neg hc] at hmap
            rw [← hmap]
            simp only [Bool.and_eq_true, beq_iff_eq, Option.isNone_iff_eq_none, not_and]
            intro hAB _
            exact hc (beq_iff_eq.mpr (hAB.2.trans hpe.1.2.symm))
        simp [archive_entity, hnone]
end Joyce.Entities

namespace Joyce.Entities

/-- Witness for C5: archiving a live row once, then again. -/
theorem archive_entity_idempotent_witness :
    true = true ∧
    (∀ r ∈ [(⟨"e1", "u1", "s1", "t", "misc", [], 0, some 5⟩ : UserEntityRow)],
      r.id = "e1" → r.archived_at = some 5) ∧
    archive_entity [⟨"e1", "u1", "s1", "t", "misc", [], 0, some 5⟩] "u1" "e1" none 6 =
      some (false, [⟨"e1", "u1", "s1", "t", "misc", [], 0, some 5⟩]) :=
  (archive_entity_idempotent [⟨"e1", "u1", "s1", "t", "misc", [], 0, none⟩] "u1" "e1"
      none none 5 6).2
    ⟨"e1", "u1", "s1", "t", "misc", [], 0, none⟩ true
    [⟨"e1", "u1", "s1", "t", "misc", [], 0, some 5⟩] rfl rfl

end Joyce.Entities

namespace Joyce.Entities

/-- Claim C3: per user at most one row exists per slug.  With a profile
present and the data block prepared, `create_entity` on an already-used
`(user_id, slug)` fails with the uniqueness-violation error (table unchanged)
when `allow_upsert` is false, and with `allow_upsert` it merges into the
existing row — overwriting `type`, `collection` and `data`, refreshing
`updated_at`, resetting `archived_at` to null — while keeping the row's
original `id`; and `create_entity` preserves pairwise distinctness of
`(user_id, slug)` keys. -/
theorem create_entity_slug_unique (profiles : List UserProfileRow)
    (db : List UserEntityRow) (h : Heap) (user_id entity_type : String)
    (dataArg : Option Nat) (slug collection entityId nowIso : String)
    (nowTick : Nat) (prof : UserProfileRow) (h4 : Heap) (d : Nat)
    (hprof : profiles.find? (fun p => p.user_id == user_id) = some prof)
    (hprep : prepareEntityData h dataArg entityId nowIso = some (h4, d)) :
    (∀ r, db.find? (fun x => x.user_id == user_id && x.slug == slug) = some r →
      create_entity profiles db h user_id entity_type dataArg (some slug) collection
        false entityId nowIso nowTick =
        (h4, db, Except.error CreateErr.integrityError) ∧
      create_entity profiles db h user_id entity_type dataArg (some slug) collection
        true entityId nowIso nowTick =
        (h4,
         db.map (fun x => if x.user_id == user_id && x.slug == slug then
           { r with
             type := entity_type, collection := collection,
             data := snapshotObj h4 (h4.length + 1) ((heapGet h4 d).getD []),
             updated_at := nowTick, archived_at := none } else x),
         Except.ok { r with
           type := entity_type, collection := collection,
           data := snapshotObj h4 (h4.length + 1) ((heapGet h4 d).getD []),
           updated_at := nowTick, archived_at := none })) ∧
    (∀ allow_upsert : Bool,
      List.Pairwise (fun a b => ¬(a.user_id = b.user_id ∧ a.slug = b.slug)) db →
      List.Pairwise (fun a b => ¬(a.user_id = b.user_id ∧ a.slug = b.slug))
        (create_entity profiles db h user_id entity_type dataArg (some slug) collection
          allow_upsert entityId nowIso nowTick).2.1) := by
  constructor
  · intro r hfound
    constructor
    · simp [create_entity, hprof, hprep, hfound]
    · simp [create_entity, hprof, hprep, hfound]
  · intro allow_upsert hpw
    cases hfound : db.find? (fun x => x.user_id == user_id && x.slug == slug) with
    | some r =>
      have hkey := List.find?_some hfound
      simp only [Bool.and_eq_true, beq_iff_eq] at hkey
      cases allow_upsert with
      | false => simpa [create_entity, hprof, hprep, hfound] using hpw
      | true =>
        simp only [create_entity, hprof, hprep, hfound, if_true]
        rw [List.pairwise_map]
        refine hpw.imp ?_
        intro a b hab hcon
        apply hab
        have hka : ∀ x : UserEntityRow,
            ((if x.user_id == user_id && x.slug == slug then
              { r with
                type := entity_type, collection := collection,
                data := snapshotObj h4 (h4.length + 1) ((heapGet h4 d).getD []),
                updated_at := nowTick, archived_at := none } else x) : UserEntityRow).user_id =
              x.user_id ∧
            ((if x.user_id == user_id && x.slug == slug then
              { r with
                type := entity_type, collection := collection,
                data := snapshotObj h4 (h4.length + 1) ((heapGet h4 d).getD []),
                updated_at := nowTick, archived_at := none } else x) : UserEntityRow).slug =
              x.slug := by
          intro x
          by_cases hc : (x.user_id == user_id && x.slug == slug) = true
          · have hx : x.user_id = user_id ∧ x.slug = slug := by
              simpa [Bool.and_eq_true, beq_iff_eq] using hc
            rw [if_pos hc]
            exact ⟨hkey.1.trans hx.1.symm, hkey.2.trans hx.2.symm⟩
          · rw [if_neg hc]
            exact ⟨rfl, rfl⟩
        rcases hcon with ⟨hu, hs⟩
        rw [(hka a).1, (hka b).1] at hu
        rw [(hka a).2, (hka b).2] at hs
        exact ⟨hu, hs⟩
    | none =>
      have hmiss := List.find?_eq_none.mp hfound
      have hgoal : List.Pairwise (fun a b => ¬(a.user_id = b.user_id ∧ a.slug = b.slug))
          (db ++ [(⟨entityId, user_id, slug, entity_type, collection,
            snapshotObj h4 (h4.length + 1) ((heapGet h4 d).getD []), nowTick, none⟩ :
            UserEntityRow)]) := by
        rw [List.pairwise_append]
        refine ⟨hpw, List.pairwise_singleton _ _, ?_⟩
        intro a ha b hb
        have hbrow := List.mem_singleton.mp hb
        have hpa := hmiss a ha
        simp only [Bool.and_eq_true, beq_iff_eq, not_and] at hpa
        intro hcon
        rw [hbrow] at hcon
        exact hpa hcon.1 hcon.2
      cases allow_upsert with
      | false => simpa [create_entity, hprof, hprep, hfound] using hgoal
      | true => simpa [create_entity, hprof, hprep, hfound] using hgoal

end Joyce.Entities

namespace Joyce.Entities

/-- Witness for C3: a second `create_entity` call on an occupied (and
archived) `(user_id, slug)` pair, without and with `allow_upsert`. -/
theorem create_entity_slug_unique_witness :
    (create_entity [⟨"u1", "Dave Smith"⟩] [⟨"old", "u1", "s1", "t0", "c0", [], 0, some 3⟩]
        [] "u1" "t1" none (some "s1") "c1" false "e9" "NOW" 9 =
      ([(1, [("id", PVal.str "e9"), ("meta", PVal.ref 2)]),
        (2, [("created_source", PVal.str "llm_tool"), ("last_updated", PVal.str "NOW")])],
       [⟨"old", "u1", "s1", "t0", "c0", [], 0, some 3⟩],
       Except.error CreateErr.integrityError)) ∧
    (create_entity [⟨"u1", "Dave Smith"⟩] [⟨"old", "u1", "s1", "t0", "c0", [], 0, some 3⟩]
        [] "u1" "t1" none (some "s1") "c1" true "e9" "NOW" 9 =
      ([(1, [("id", PVal.str "e9"), ("meta", PVal.ref 2)]),
        (2, [("created_source", PVal.str "llm_tool"), ("last_updated", PVal.str "NOW")])],
       [⟨"old", "u1", "s1", "t1", "c1",
         [("id", JVal.str "e9"),
          ("meta", JVal.obj [("created_source", JVal.str "llm_tool"),
            ("last_updated", JVal.str "NOW")])], 9, none⟩],
       Except.ok ⟨"old", "u1", "s1", "t1", "c1",
         [("id", JVal.str "e9"),
          ("meta", JVal.obj [("created_source", JVal.str "llm_tool"),
            ("last_updated", JVal.str "NOW")])], 9, none⟩)) ∧
    List.Pairwise (fun a b => ¬(a.user_id = b.user_id ∧ a.slug = b.slug))
      (create_entity [⟨"u1", "Dave Smith"⟩] [⟨"old", "u1", "s1", "t0", "c0", [], 0, some 3⟩]
        [] "u1" "t1" none (some "s1") "c1" true "e9" "NOW" 9).2.1 :=
  ⟨((create_entity_slug_unique [⟨"u1", "Dave Smith"⟩]
      [⟨"old", "u1", "s1", "t0", "c0", [], 0, some 3⟩] [] "u1" "t1" none "s1" "c1" "e9"
      "NOW" 9 ⟨"u1", "Dave Smith"⟩
      [(1, [("id", PVal.str "e9"), ("meta", PVal.ref 2)]),
       (2, [("created_source", PVal.str "llm_tool"), ("last_updated", PVal.str "NOW")])]
      1 rfl rfl).1 ⟨"old", "u1", "s1", "t0", "c0", [], 0, some 3⟩ rfl).1,
   ((create_entity_slug_unique [⟨"u1", "Dave Smith"⟩]
      [⟨"old", "u1", "s1", "t0", "c0", [], 0, some 3⟩] [] "u1" "t1" none "s1" "c1" "e9"
      "NOW" 9 ⟨"u1", "Dave Smith"⟩
      [(1, [("id", PVal.str "e9"), ("meta", PVal.ref 2)]),
       (2, [("created_source", PVal.str "llm_tool"), ("last_updated", PVal.str "NOW")])]
      1 rfl rfl).1 ⟨"old", "u1", "s1", "t0", "c0", [], 0, some 3⟩ rfl).2,
   (create_entity_slug_unique [⟨"u1", "Dave Smith"⟩]
      [⟨"old", "u1", "s1", "t0", "c0", [], 0, some 3⟩] [] "u1" "t1" none "s1" "c1" "e9"
      "NOW" 9 ⟨"u1", "Dave Smith"⟩
      [(1, [("id", PVal.str "e9"), ("meta", PVal.ref 2)]),
       (2, [("created_source", PVal.str "llm_tool"), ("last_updated", PVal.str "NOW")])]
      1 rfl rfl).2 true (List.pairwise_singleton _ _)⟩

end Joyce.Entities

namespace Joyce.Entities

/-- Counterexample to Claim C8 as stated: the caller passes a `data` dict
(address 0) holding a nested `meta` dict (address 1, initially empty).
After `create_entity`'s data-preparation block, the caller's nested `meta`
object has been mutated in place — `data.copy()` is shallow, so
`data.setdefault("meta", {}).update(...)` writes into the caller's dict. -/
theorem create_entity_defensive_copy_cex :
    (prepareEntityData [(0, [("meta", PVal.ref 1)]), (1, [])] (some 0) "eid" "NOW").map
      (fun p => heapGet p.1 1) =
      some (some [("created_source", PVal.str "llm_tool"),
        ("last_updated", PVal.str "NOW")]) ∧
    heapGet [(0, [("meta", PVal.ref 1)]), (1, [])] 1 = some [] := ⟨rfl, rfl⟩

/-- Claim C8 as amended: the data-preparation block of `create_entity` never
mutates the top-level dict the caller passed as `data` (that one is
shallow-copied), but a caller-supplied nested `meta` object is mutated in
place, receiving `created_source` and `last_updated`; and the prepared dict
stored for the entity carries the entity's own id under `"id"` and a `meta`
object with `created_source = "llm_tool"` and the ISO `last_updated`
timestamp. -/
theorem create_entity_shallow_copy (h : Heap) (a : Nat) (o : PObj) (eid nowIso : String)
    (hget : heapGet h a = some o)
    (hstr : ∀ s, pdictGet o "meta" ≠ some (PVal.str s))
    (href : ∀ ma, pdictGet o "meta" = some (PVal.ref ma) →
      ma ≠ a ∧ ∃ mo, heapGet h ma = some mo) :
    ∃ h4 d, prepareEntityData h (some a) eid nowIso = some (h4, d) ∧
      heapGet h4 a = some o ∧
      (∀ ma mo, pdictGet o "meta" = some (PVal.ref ma) → heapGet h ma = some mo →
        heapGet h4 ma =
          some (pdictSet (pdictSet mo "created_source" (PVal.str "llm_tool"))
            "last_updated" (PVal.str nowIso))) ∧
      (∃ content, heapGet h4 d = some content ∧
        pdictGet content "id" = some (PVal.str eid) ∧
        ∃ ma2 mo2, pdictGet content "meta" = some (PVal.ref ma2) ∧
          heapGet h4 ma2 = some mo2 ∧
          pdictGet mo2 "created_source" = some (PVal.str "llm_tool") ∧
          pdictGet mo2 "last_updated" = some (PVal.str nowIso)) := by
  have hcopied : (if o.isEmpty then ([] : PObj) else o) = o := by
    cases o with
    | nil => simp
    | cons x xs => simp
  have hWmeta : pdictGet (pdictSet o "id" (PVal.str eid)) "meta" = pdictGet o "meta" :=
    pdictGet_pdictSet_ne o (PVal.str eid) (by decide)
  have haF : a < freshAddr h := heapGet_some_lt_fresh h a o hget
  have h1get_a : heapGet (h ++ [(freshAddr h, o)]) a = some o :=
    heapGet_append_left h _ a o hget
  have h1get_F : heapGet (h ++ [(freshAddr h, o)]) (freshAddr h) = some o :=
    heapGet_alloc_fresh h o
  have h2get_F : heapGet (heapSet (h ++ [(freshAddr h, o)]) (freshAddr h)
      (pdictSet o "id" (PVal.str eid))) (freshAddr h) =
      some (pdictSet o "id" (PVal.str eid)) :=
    heapGet_heapSet_self _ _ _ _ h1get_F
  have h2get_a : heapGet (heapSet (h ++ [(freshAddr h, o)]) (freshAddr h)
      (pdictSet o "id" (PVal.str eid))) a = some o := by
    rw [heapGet_heapSet_ne _ _ (ne_of_gt haF)]
    exact h1get_a
  cases hmeta : pdictGet o "meta" with
  | some v =>
    cases v with
    | str s => exact absurd hmeta (hstr s)
    | ref ma =>
      obtain ⟨hma_ne_a, mo, hmo⟩ := href ma hmeta
      have hmaF : ma < freshAddr h := heapGet_some_lt_fresh h ma mo hmo
      have h2get_ma : heapGet (heapSet (h ++ [(freshAddr h, o)]) (freshAddr h)
          (pdictSet o "id" (PVal.str eid))) ma = some mo := by
        rw [heapGet_heapSet_ne _ _ (ne_of_gt hmaF)]
        exact heapGet_append_left h _ ma mo hmo
      have hrun : prepareEntityData h (some a) eid nowIso =
          some (heapSet (heapSet (h ++ [(freshAddr h, o)]) (freshAddr h)
            (pdictSet o "id" (PVal.str eid))) ma
            (pdictSet (pdictSet mo "created_source" (PVal.str "llm_tool"))
              "last_updated" (PVal.str nowIso)), freshAddr h) := by
        simp only [prepareEntityData, hget, hcopied, heapAlloc, hWmeta, hmeta, h2get_ma]
      refine ⟨_, _, hrun, ?_, ?_, ?_⟩
      · rw [heapGet_heapSet_ne _ _ hma_ne_a]
        exact h2get_a
      · intro ma2 mo2 hm2 hmo2
        have hma2 : ma = ma2 := by simpa using hm2
        subst hma2
        rw [hmo] at hmo2
        have hmo2eq : mo = mo2 := by simpa using hmo2
        subst hmo2eq
        exact heapGet_heapSet_self _ _ _ _ h2get_ma
      · refine ⟨pdictSet o "id" (PVal.str eid), ?_, pdictGet_pdictSet_self o "id" _,
          ma, pdictSet (pdictSet mo "created_source" (PVal.str "llm_tool"))
            "last_updated" (PVal.str nowIso), ?_, ?_, ?_, ?_⟩
        · rw [heapGet_heapSet_ne _ _ (ne_of_lt hmaF)]
          exact h2get_F
        · rw [hWmeta]
          exact hmeta
        · exact heapGet_heapSet_self _ _ _ _ h2get_ma
        · rw [pdictGet_pdictSet_ne _ _ (by decide)]
          exact pdictGet_pdictSet_self mo "created_source" _
        · exact pdictGet_pdictSet_self _ "last_updated" _
  | none =>
    have hF2 : freshAddr h < freshAddr (heapSet (h ++ [(freshAddr h, o)]) (freshAddr h)
        (pdictSet o "id" (PVal.str eid))) :=
      heapGet_some_lt_fresh _ _ _ h2get_F
    have h3get_F : heapGet (heapSet (h ++ [(freshAddr h, o)]) (freshAddr h)
        (pdictSet o "id" (PVal.str eid)) ++
        [(freshAddr (heapSet (h ++ [(freshAddr h, o)]) (freshAddr h)
          (pdictSet o "id" (PVal.str eid))),
          pdictSet (pdictSet [] "created_source" (PVal.str "llm_tool"))
            "last_updated" (PVal.str nowIso))]) (freshAddr h) =
        some (pdictSet o "id" (PVal.str eid)) :=
      heapGet_append_left _ _ _ _ h2get_F
  -- continued below
    have h3get_a : heapGet (heapSet (h ++ [(freshAddr h, o)]) (freshAddr h)
        (pdictSet o "id" (PVal.str eid)) ++
        [(freshAddr (heapSet (h ++ [(freshAddr h, o)]) (freshAddr h)
          (pdictSet o "id" (PVal.str eid))),
          pdictSet (pdictSet [] "created_source" (PVal.str "llm_tool"))
            "last_updated" (PVal.str nowIso))]) a = some o :=
      heapGet_append_left _ _ _ _ h2get_a
    have h3get_F2 : heapGet (heapSet (h ++ [(freshAddr h, o)]) (freshAddr h)
        (pdictSet o "id" (PVal.str eid)) ++
        [(freshAddr (heapSet (h ++ [(freshAddr h, o)]) (freshAddr h)
          (pdictSet o "id" (PVal.str eid))),
          pdictSet (pdictSet [] "created_source" (PVal.str "llm_tool"))
            "last_updated" (PVal.str nowIso))])
        (freshAddr (heapSet (h ++ [(freshAddr h, o)]) (freshAddr h)
          (pdictSet o "id" (PVal.str eid)))) =
        some (pdictSet (pdictSet [] "created_source" (PVal.str "llm_tool"))
          "last_updated" (PVal.str nowIso)) :=
      heapGet_alloc_fresh _ _
    have hrun : prepareEntityData h (some a) eid nowIso =
        some (heapSet (heapSet (h ++ [(freshAddr h, o)]) (freshAddr h)
          (pdictSet o "id" (PVal.str eid)) ++
          [(freshAddr (heapSet (h ++ [(freshAddr h, o)]) (freshAddr h)
            (pdictSet o "id" (PVal.str eid))),
            pdictSet (pdictSet [] "created_source" (PVal.str "llm_tool"))
              "last_updated" (PVal.str nowIso))]) (freshAddr h)
          (pdictSet (pdictSet o "id" (PVal.str eid)) "meta"
            (PVal.ref (freshAddr (heapSet (h ++ [(freshAddr h, o)]) (freshAddr h)
              (pdictSet o "id" (PVal.str eid)))))), freshAddr h) := by
      simp only [prepareEntityData, hget, hcopied, heapAlloc, hWmeta, hmeta]
    refine ⟨_, _, hrun, ?_, ?_, ?_⟩
    · rw [heapGet_heapSet_ne _ _ (ne_of_gt haF)]
      exact h3get_a
    · intro ma2 mo2 hm2 hmo2
      exact absurd hm2 (by simp)
    · refine ⟨pdictSet (pdictSet o "id" (PVal.str eid)) "meta"
          (PVal.ref (freshAddr (heapSet (h ++ [(freshAddr h, o)]) (freshAddr h)
            (pdictSet o "id" (PVal.str eid))))), ?_, ?_,
        freshAddr (heapSet (h ++ [(freshAddr h, o)]) (freshAddr h)
          (pdictSet o "id" (PVal.str eid))),
        pdictSet (pdictSet [] "created_source" (PVal.str "llm_tool"))
          "last_updated" (PVal.str nowIso), ?_, ?_, ?_, ?_⟩
      · exact heapGet_heapSet_self _ _ _ _ h3get_F
      · rw [pdictGet_pdictSet_ne _ _ (by decide)]
        exact pdictGet_pdictSet_self o "id" _
      · exact pdictGet_pdictSet_self _ "meta" _
      · rw [heapGet_heapSet_ne _ _ (ne_of_lt hF2)]
        exact h3get_F2
      · rw [pdictGet_pdictSet_ne _ _ (by decide)]
        exact pdictGet_pdictSet_self [] "created_source" _
      · exact pdictGet_pdictSet_self _ "last_updated" _

/-- Witness for the amended C8: caller data at address 0 with a nested meta
dict at address 1. -/
theorem create_entity_shallow_copy_witness :
    ∃ h4 d, prepareEntityData [(0, [("k", PVal.str "v"), ("meta", PVal.ref 1)]), (1, [])]
        (some 0) "e7" "NOW" = some (h4, d) ∧
      heapGet h4 0 = some [("k", PVal.str "v"), ("meta", PVal.ref 1)] ∧
      (∀ ma mo, pdictGet [("k", PVal.str "v"), ("meta", PVal.ref 1)] "meta" =
          some (PVal.ref ma) →
        heapGet [(0, [("k", PVal.str "v"), ("meta", PVal.ref 1)]), (1, [])] ma = some mo →
        heapGet h4 ma =
          some (pdictSet (pdictSet mo "created_source" (PVal.str "llm_tool"))
            "last_updated" (PVal.str "NOW"))) ∧
      (∃ content, heapGet h4 d = some content ∧
        pdictGet content "id" = some (PVal.str "e7") ∧
        ∃ ma2 mo2, pdictGet content "meta" = some (PVal.ref ma2) ∧
          heapGet h4 ma2 = some mo2 ∧
          pdictGet mo2 "created_source" = some (PVal.str "llm_tool") ∧
          pdictGet mo2 "last_updated" = some (PVal.str "NOW")) :=
  create_entity_shallow_copy [(0, [("k", PVal.str "v"), ("meta", PVal.ref 1)]), (1, [])]
    0 [("k", PVal.str "v"), ("meta", PVal.ref 1)] "e7" "NOW" rfl
    (by intro s hs; simp [pdictGet, List.find?] at hs)
    (by
      intro ma hma
      refine ⟨?_, [], ?_⟩
      · have : ma = 1 := by
          have := hma
          simp [pdictGet, List.find?] at this
          exact this.symm
        omega
      · have : ma = 1 := by
          have := hma
          simp [pdictGet, List.find?] at this
          exact this.symm
        rw [this]
        rfl)

end Joyce.Entities

namespace Joyce.VSModels

theorem joinSep_len (l : List String) (h : l ≠ []) :
    (joinSep "\n\n" l).length + 2 = weight l := by
  induction l with
  | nil => exact absurd rfl h
  | cons p rest ih =>
    cases rest with
    | nil => simp [joinSep, weight]
    | cons q r =>
      have ih2 := ih (by simp)
      simp only [joinSep, weight, List.foldr_cons, String.length_append] at ih2 ⊢
      have hsep : ("\n\n" : String).length = 2 := rfl
      omega

theorem weight_append (a b : List String) : weight (a ++ b) = weight a + weight b := by
  induction a with
  | nil => simp [weight]
  | cons p rest ih =>
    simp only [weight, List.foldr_cons, List.cons_append] at ih ⊢
    omega

theorem weight_reverse (l : List String) : weight l.reverse = weight l := by
  induction l with
  | nil => rfl
  | cons p rest ih =>
    rw [List.reverse_cons, weight_append]
    simp only [weight, List.foldr_cons, List.foldr_nil] at ih ⊢
    omega

theorem ragLoop_spec (N total M : Nat) (rest : List VectorSearchDocument) :
    ∀ (i cur : Nat) (parts : List String),
      parts ≠ [] →
      cur = weight parts →
      cur ≤ N + 2 + M →
      maxEntryLenFrom i rest ≤ M →
      ∃ k, k ≤ rest.length ∧
        ragLoop N total rest i cur parts =
          parts.reverse ++ entriesFrom i (rest.take k) ++
            (if k = rest.length then [] else [markerStr (total - (i + k))]) ∧
        weight (ragLoop N total rest i cur parts) ≤
          N + 2 + M + (if k = rest.length then 0
            else 2 + (markerStr (total - (i + k))).length) := by
  induction rest with
  | nil =>
    intro i cur parts hne hcur hbound hM
    refine ⟨0, le_rfl, ?_, ?_⟩
    · simp [ragLoop, entriesFrom]
    · simp only [ragLoop, List.length_nil, if_pos rfl]
      rw [weight_reverse]
      omega
  | cons d rest ih =>
    intro i cur parts hne hcur hbound hM
    by_cases hguard : (cur + (entryAt i d).length > N ∧ parts ≠ [])
    · have hstep : ragLoop N total (d :: rest) i cur parts =
          (markerStr (total - i) :: parts).reverse := by
        simp only [ragLoop]
        rw [if_pos hguard]
      refine ⟨0, by simp, ?_, ?_⟩
      · rw [hstep, List.reverse_cons]
        have hlen : ¬((0 : Nat) = (d :: rest).length) := by simp
        rw [if_neg hlen]
        simp [entriesFrom]
      · rw [hstep, List.reverse_cons, weight_append, weight_reverse]
        have hlen : ¬((0 : Nat) = (d :: rest).length) := by simp
        rw [if_neg hlen]
        simp only [Nat.add_zero]
        have hw1 : weight [markerStr (total - i)] = (markerStr (total - i)).length + 2 := by
          simp [weight]
        rw [hw1]
        omega
    · have hle : ¬(cur + (entryAt i d).length > N) := fun hA => hguard ⟨hA, hne⟩
      have hstep : ragLoop N total (d :: rest) i cur parts =
          ragLoop N total rest (i + 1) (cur + (entryAt i d).length + 2)
            (entryAt i d :: parts) := by
        simp only [ragLoop]
        rw [if_neg hguard]
      have hne2 : (entryAt i d :: parts) ≠ [] := by simp
      have hcur2 : cur + (entryAt i d).length + 2 = weight (entryAt i d :: parts) := by
        simp only [weight, List.foldr_cons]
        simp only [weight] at hcur
        omega
      have hbound2 : cur + (entryAt i d).length + 2 ≤ N + 2 + M := by omega
      have hM2 : maxEntryLenFrom (i + 1) rest ≤ M := by
        simp only [maxEntryLenFrom, max_le_iff] at hM
        exact hM.2
      obtain ⟨k, hk, heq, hw⟩ := ih (i + 1) (cur + (entryAt i d).length + 2)
        (entryAt i d :: parts) hne2 hcur2 hbound2 hM2
      have hmark : total - (i + 1 + k) = total - (i + (k + 1)) := by omega
      refine ⟨k + 1, by simpa using Nat.succ_le_succ hk, ?_, ?_⟩
      · rw [hstep, heq, List.reverse_cons]
        rw [List.take_succ_cons]
        have hent : entriesFrom i (d :: rest.take k) =
            entryAt i d :: entriesFrom (i + 1) (rest.take k) := rfl
        rw [hent]
        by_cases hkl : k = rest.length
        · subst hkl
          rw [if_pos rfl, if_pos (by simp)]
          simp
        · rw [if_neg hkl, if_neg (by simp only [List.length_cons]; omega)]
          rw [hmark]
          simp
      · rw [hstep]
        rw [hmark] at hw
        by_cases hkl : k = rest.length
        · subst hkl
          rw [if_pos rfl] at hw
          rw [if_pos (by simp)]
          simpa using hw
        · rw [if_neg hkl] at hw
          rw [if_neg (by simp only [List.length_cons]; omega)]
          simpa using hw

end Joyce.VSModels

namespace Joyce.VSModels

/-- Claim C7 as amended: for a non-empty result set, `to_rag_context` renders
some positive number `k` of documents; its output is exactly the
newline-joined sequence of the first `k` full formatted entries — no entry is
ever cut partway — followed, exactly when documents are omitted, by a single
marker `"... (K more results)"` with `K` the number of documents not
rendered; and its length never exceeds `max_length` plus the largest full
entry, plus the marker, plus the two newline characters that join the marker
on. -/
theorem to_rag_context_truncation (docs : List VectorSearchDocument) (N : Nat)
    (h : docs ≠ []) :
    ∃ k, 1 ≤ k ∧ k ≤ docs.length ∧
      toRagContext docs N =
        joinSep "\n\n" (entriesFrom 0 (docs.take k) ++
          (if k = docs.length then [] else [markerStr (docs.length - k)])) ∧
      (toRagContext docs N).length ≤
        N + maxEntryLenFrom 0 docs + 2 +
          (if k = docs.length then 0 else (markerStr (docs.length - k)).length) := by
  cases docs with
  | nil => exact absurd rfl h
  | cons d rest =>
    have hM1 : (entryAt 0 d).length ≤ maxEntryLenFrom 0 (d :: rest) := by
      simp only [maxEntryLenFrom]
      exact le_max_left _ _
    have hM2 : maxEntryLenFrom 1 rest ≤ maxEntryLenFrom 0 (d :: rest) := by
      simp only [maxEntryLenFrom]
      exact le_max_right _ _
    have hstep : toRagContext (d :: rest) N =
        joinSep "\n\n" (ragLoop N (d :: rest).length rest 1 ((entryAt 0 d).length + 2)
          [entryAt 0 d]) := by
      simp only [toRagContext, List.isEmpty_cons, Bool.false_eq_true, if_false, ragLoop]
      rw [if_neg (by simp)]
      simp only [Nat.zero_add]
    obtain ⟨k, hk, heq, hw⟩ := ragLoop_spec N (d :: rest).length
      (maxEntryLenFrom 0 (d :: rest)) rest 1 ((entryAt 0 d).length + 2) [entryAt 0 d]
      (by simp) (by simp [weight]) (by omega) hM2
    refine ⟨k + 1, by omega, by simp only [List.length_cons]; omega, ?_, ?_⟩
    · rw [hstep, heq]
      have hmark2 : (d :: rest).length - (1 + k) = (d :: rest).length - (k + 1) := by
        omega
      congr 1
      rw [List.take_succ_cons]
      have hent : entriesFrom 0 (d :: rest.take k) =
          entryAt 0 d :: entriesFrom 1 (rest.take k) := rfl
      rw [hent]
      by_cases hkl : k = rest.length
      · subst hkl
        rw [if_pos rfl, if_pos (by simp)]
        simp
      · rw [if_neg hkl, if_neg (by simp only [List.length_cons]; omega), hmark2]
        simp
    · rw [hstep]
      have hjne : ragLoop N (d :: rest).length rest 1 ((entryAt 0 d).length + 2)
          [entryAt 0 d] ≠ [] := by
        rw [heq]
        simp
      have hjoin := joinSep_len _ hjne
      by_cases hkl : k = rest.length
      · subst hkl
        rw [if_pos rfl] at hw
        rw [if_pos (by simp)]
        omega
      · rw [if_neg hkl] at hw
        rw [if_neg (by simp only [List.length_cons]; omega)]
        have hmark2 : (d :: rest).length - (1 + k) = (d :: rest).length - (k + 1) := by
          omega
        rw [← hmark2]
        omega

/-- Witness for the amended C7: three documents at the default budget. -/
theorem to_rag_context_truncation_witness :
    ∃ k, 1 ≤ k ∧
      k ≤ ([⟨"hello world", ""⟩, ⟨"second doc", " (score: 0.500)"⟩,
        ⟨"third", ""⟩] : List VectorSearchDocument).length ∧
      toRagContext [⟨"hello world", ""⟩, ⟨"second doc", " (score: 0.500)"⟩,
          ⟨"third", ""⟩] 20 =
        joinSep "\n\n" (entriesFrom 0 (([⟨"hello world", ""⟩,
          ⟨"second doc", " (score: 0.500)"⟩, ⟨"third", ""⟩] :
            List VectorSearchDocument).take k) ++
          (if k = ([⟨"hello world", ""⟩, ⟨"second doc", " (score: 0.500)"⟩,
            ⟨"third", ""⟩] : List VectorSearchDocument).length then []
           else [markerStr (([⟨"hello world", ""⟩, ⟨"second doc", " (score: 0.500)"⟩,
            ⟨"third", ""⟩] : List VectorSearchDocument).length - k)])) ∧
      (toRagContext [⟨"hello world", ""⟩, ⟨"second doc", " (score: 0.500)"⟩,
          ⟨"third", ""⟩] 20).length ≤
        20 + maxEntryLenFrom 0 [⟨"hello world", ""⟩, ⟨"second doc", " (score: 0.500)"⟩,
            ⟨"third", ""⟩] + 2 +
          (if k = ([⟨"hello world", ""⟩, ⟨"second doc", " (score: 0.500)"⟩,
            ⟨"third", ""⟩] : List VectorSearchDocument).length then 0
           else (markerStr (([⟨"hello world", ""⟩, ⟨"second doc", " (score: 0.500)"⟩,
            ⟨"third", ""⟩] : List VectorSearchDocument).length - k)).length) :=
  to_rag_context_truncation [⟨"hello world", ""⟩, ⟨"second doc", " (score: 0.500)"⟩,
    ⟨"third", ""⟩] 20 (by simp)

/-- Counterexample to Claim C7 as stated: with `max_length = 0` and two
documents whose entries are each 4 characters, the output
`"[1] \n\n... (1 more results)"` has length 26, which exceeds
`max_length + one full entry + marker = 0 + 4 + 20 = 24` — the two joining
newline characters are unaccounted for. -/
theorem to_rag_context_truncation_cex :
    (toRagContext [⟨"", ""⟩, ⟨"", ""⟩] 0).length = 26 ∧
    (entryAt 0 (⟨"", ""⟩ : VectorSearchDocument)).length = 4 ∧
    (entryAt 1 (⟨"", ""⟩ : VectorSearchDocument)).length = 4 ∧
    (markerStr 1).length = 20 ∧
    26 > 0 + 4 + 20 := by
  refine ⟨rfl, rfl, rfl, rfl, by omega⟩

end Joyce.VSModels
